import Mathlib

/-!
Verification of the signal filtering/position-sizing pipeline and the
order-lifecycle monitor of an Alpaca trading bot.

Shallow embedding conventions:
* Python strings are `List Char`; Python `Decimal` and `float` values are `ℚ`
  (the spec mandates exact decimal semantics for all monetary quantities).
* Fallible Python code returns `Except PyErr α`; `PyErr` collapses the Python
  exception classes the code distinguishes (`KeyError`, `ValueError`,
  `ZeroDivisionError` from `Decimal` division).
* JSON field accesses of a feed entry are modelled as `Option`-valued fields of
  `RawSignalData`: `none` means the access (or the string/number conversion the
  source applies at that path) raises, `some v` is the converted value.
* `pyIntParse`/`pyFloatParse` model Python `int(str)`/`float(str)` on the
  decimal-literal subset (optional sign, digits, one dot); whitespace trimming,
  underscore separators and exponent notation are not modelled — no claim
  depends on them.
-/

/-- Decidable equality of `Except` results, so that concrete runs of the
embedded code can be checked by `decide`. -/
instance exceptDecEq {ε α : Type} [DecidableEq ε] [DecidableEq α] :
    DecidableEq (Except ε α) := fun x y =>
  match x, y with
  | .error a, .error b => decidable_of_iff (a = b) (by simp)
  | .ok a, .ok b => decidable_of_iff (a = b) (by simp)
  | .error _, .ok _ => isFalse fun h => nomatch h
  | .ok _, .error _ => isFalse fun h => nomatch h

attribute [local semireducible] Rat.mul Rat.add Rat.inv Rat.sub

/-- Python exception kinds distinguished by `signal_processor.py`. -/
inductive PyErr
  | keyError
  | valueError
  | zeroDivErr
  deriving DecidableEq, Repr

/-- Is `c` an ASCII decimal digit? -/
def isDigitChar (c : Char) : Bool :=
  decide ('0' ≤ c ∧ c ≤ '9')

/-- All characters are ASCII decimal digits. -/
def allDigits (cs : List Char) : Bool :=
  cs.all isDigitChar

/-- Numeric value of a digit string (most significant first). -/
def digitsToNat (cs : List Char) : ℕ :=
  cs.foldl (fun a c => a * 10 + (c.toNat - '0'.toNat)) 0

/-- Value of a nonempty all-digit string, `none` otherwise. -/
def digitsVal (cs : List Char) : Option ℕ :=
  if cs ≠ [] ∧ allDigits cs then some (digitsToNat cs) else none

/-- Python `int(s)` on the sign-and-digits subset: optional leading `-`/`+`,
then a nonempty run of decimal digits. -/
def pyIntParse (cs : List Char) : Option ℤ :=
  if cs.head? = some '-' then (digitsVal cs.tail).map fun n => -(n : ℤ)
  else if cs.head? = some '+' then (digitsVal cs.tail).map fun n => (n : ℤ)
  else (digitsVal cs).map fun n => (n : ℤ)

/-- Python `float(s)` on the decimal-literal subset: optional sign, digits,
optionally one dot with digits on at least one side. -/
def pyFloatParse (cs : List Char) : Option ℚ :=
  let body := if cs.head? = some '-' ∨ cs.head? = some '+' then cs.tail else cs
  let sign : ℚ := if cs.head? = some '-' then -1 else 1
  let ip := body.takeWhile fun c => decide (c ≠ '.')
  let rest := body.dropWhile fun c => decide (c ≠ '.')
  if rest = [] then
    if ip ≠ [] ∧ allDigits ip then some (sign * (digitsToNat ip : ℚ)) else none
  else
    let fp := rest.tail
    if (ip ≠ [] ∨ fp ≠ []) ∧ allDigits ip ∧ allDigits fp then
      some (sign * ((digitsToNat ip : ℚ) + (digitsToNat fp : ℚ) / (10 : ℚ) ^ fp.length))
    else none

/-- Python `key.split('_w')`: split on non-overlapping occurrences of the
two-character separator `_w`, left to right. -/
def splitW : List Char → List (List Char)
  | [] => [[]]
  | [c] => [[c]]
  | c1 :: c2 :: rest =>
    if c1 = '_' ∧ c2 = 'w' then
      [] :: splitW rest
    else
      match splitW (c2 :: rest) with
      | [] => [[]]
      | t :: ts => (c1 :: t) :: ts

/-- `parse_signal_key` from `signal_processor.py`: `symbol, window =
key.split('_w')` (unpacking into two raises `ValueError` unless the split has
exactly two parts), then `int(window)` (raises `ValueError` on failure). -/
def parse_signal_key (key : List Char) : Except PyErr (List Char × ℤ) :=
  match splitW key with
  | [symbol, window] =>
    match pyIntParse window with
    | some n => .ok (symbol, n)
    | none => .error .valueError
  | _ => .error .valueError

/-- The `TradingSignal` dataclass of `signal_processor.py`. -/
structure TradingSignal where
  date : List Char
  symbol : List Char
  signal_type : List Char
  confidence : ℚ
  current_price : ℚ
  entry_price : ℚ
  entry_limit_price : ℚ
  take_profit : ℚ
  stop_loss : ℚ
  position_size : ℚ
  time_barrier_days : ℤ
  expiry_date : List Char
  volatility : ℚ
  risk_reward_ratio : ℚ
  window_weeks : ℤ
  deriving DecidableEq, Repr

/-- One raw feed entry (`signal_data`), restricted to the JSON paths the source
reads. Each field is the outcome of the corresponding access-and-convert chain:
`none` means the access raises (`KeyError`) or the conversion the source applies
there raises (`ValueError`); `recommended_size` stays a raw string because the
source post-processes it (`split('%')[0]`, `float`, `/ 100`). -/
structure RawSignalData where
  date : Option (List Char)
  signal_type : Option (List Char)
  confidence : Option ℚ
  current_price : Option ℚ
  entry_stop_price : Option ℚ
  entry_limit_price : Option ℚ
  take_profit_price : Option ℚ
  stop_loss_price : Option ℚ
  recommended_size : Option (List Char)
  time_barrier_days : Option ℤ
  expiry_date : Option (List Char)
  daily_volatility : Option ℚ
  risk_reward_ratio : Option ℚ
  deriving DecidableEq, Repr

/-- A Python `d[k]` access: `KeyError` when the key is missing. -/
def getItem {α : Type} : Option α → Except PyErr α
  | some a => .ok a
  | none => .error .keyError

/-- The arguments of `process_trading_signals` other than the feed itself. -/
structure ProcOpts where
  account_value : ℚ
  target_symbols : Option (List (List Char))
  min_confidence : ℚ
  min_risk_reward : ℚ

/-- The filter condition of `process_trading_signals` (lines 60-63), with
Python's left-to-right short-circuit evaluation: the allow-list test
(`target_symbols and symbol not in target_symbols`, where an absent or empty
list is falsy) is decided before `signal_data['signal']['confidence']` is
accessed, and the confidence test before
`signal_data['metrics']['risk_reward_ratio']` is accessed. `.ok true` means
the entry is skipped (`continue`). -/
def filteredOut (o : ProcOpts) (symbol : List Char) (d : RawSignalData) :
    Except PyErr Bool :=
  let symbolMiss := match o.target_symbols with
    | some ts => !ts.isEmpty && !(decide (symbol ∈ ts))
    | none => false
  if symbolMiss then .ok true
  else do
    let c ← getItem d.confidence
    if c < o.min_confidence then pure true
    else do
      let r ← getItem d.risk_reward_ratio
      pure (decide (r < o.min_risk_reward))

/-- Construction of the `TradingSignal` (lines 65-81), with the keyword
arguments evaluated in source order; the first failing access or conversion
raises. -/
def buildSignal (d : RawSignalData) (symbol : List Char) (window : ℤ) :
    Except PyErr TradingSignal := do
  let date ← getItem d.date
  let stype ← getItem d.signal_type
  let conf ← getItem d.confidence
  let cp ← getItem d.current_price
  let ep ← getItem d.entry_stop_price
  let elp ← getItem d.entry_limit_price
  let tp ← getItem d.take_profit_price
  let sl ← getItem d.stop_loss_price
  let rs ← getItem d.recommended_size
  let ps ← match pyFloatParse (rs.takeWhile fun c => decide (c ≠ '%')) with
    | some q => pure (q / 100)
    | none => Except.error PyErr.valueError
  let days ← getItem d.time_barrier_days
  let expd ← getItem d.expiry_date
  let vol ← getItem d.daily_volatility
  let rr ← getItem d.risk_reward_ratio
  pure { date := date, symbol := symbol, signal_type := stype, confidence := conf,
         current_price := cp, entry_price := ep, entry_limit_price := elp,
         take_profit := tp, stop_loss := sl, position_size := ps,
         time_barrier_days := days, expiry_date := expd, volatility := vol,
         risk_reward_ratio := rr, window_weeks := window }

/-- Python `int(x)` on an exact decimal value: truncation toward zero. -/
def pyTrunc (q : ℚ) : ℤ :=
  if 0 ≤ q then ⌊q⌋ else ⌈q⌉

/-- The sizing expression (line 83):
`int(account_value * Decimal(str(signal.position_size)) / signal.entry_price)`.
`Decimal` division by zero raises (`ZeroDivisionError`), otherwise the exact
quotient is truncated toward zero by `int`. -/
def sizeSignal (account_value : ℚ) (sig : TradingSignal) : Except PyErr ℤ :=
  if sig.entry_price = 0 then .error .zeroDivErr
  else .ok (pyTrunc (account_value * sig.position_size / sig.entry_price))

/-- One iteration of the `for key, signal_data in data.items()` loop body:
parse the key, apply the filter (`continue` yields `none`), build the
`TradingSignal`, compute the share quantity. -/
def processEntry (o : ProcOpts) (key : List Char) (d : RawSignalData) :
    Except PyErr (Option (List Char × (TradingSignal × ℤ))) := do
  let sw ← parse_signal_key key
  let skip ← filteredOut o sw.1 d
  if skip then pure none
  else do
    let sig ← buildSignal d sw.1 sw.2
    let qty ← sizeSignal o.account_value sig
    pure (some (sw.1, (sig, qty)))

/-- The result dictionary: symbol → ordered list of (signal, quantity) pairs,
as an insertion-ordered association list (Python dict semantics). -/
abbrev SignalsMap : Type :=
  List (List Char × List (TradingSignal × ℤ))

/-- `signals[symbol].append(x)`, creating the key at the end on first use
(lines 85-87). -/
def addSignal : SignalsMap → List Char → TradingSignal × ℤ → SignalsMap
  | [], symbol, x => [(symbol, [x])]
  | (s, xs) :: rest, symbol, x =>
    if s = symbol then (s, xs ++ [x]) :: rest
    else (s, xs) :: addSignal rest symbol x

/-- The feed loop: entries in dict iteration order; the first raising entry
aborts the whole call (the `except` clause at lines 91-93 logs and re-raises). -/
def processFeed (o : ProcOpts) :
    List (List Char × RawSignalData) → SignalsMap → Except PyErr SignalsMap
  | [], m => .ok m
  | (k, d) :: rest, m =>
    match processEntry o k d with
    | .error e => .error e
    | .ok none => processFeed o rest m
    | .ok (some (symbol, sx)) => processFeed o rest (addSignal m symbol sx)

/-- `process_trading_signals` from `signal_processor.py`, over an already
decoded feed (the JSON file read and `json.load` are outside the model). -/
def process_trading_signals (o : ProcOpts) (feed : List (List Char × RawSignalData)) :
    Except PyErr SignalsMap :=
  processFeed o feed []

/-- Alpaca order statuses the monitor inspects, plus the non-terminal ones a
re-queried order can report. -/
inductive OrderStatus
  | new
  | partially_filled
  | filled
  | canceled
  | expired
  | pending_new
  | pending_cancel
  | accepted
  | done_for_day
  deriving DecidableEq, Repr

/-- Alpaca order side. -/
inductive OrderSide
  | buy
  | sell
  deriving DecidableEq, Repr

/-- Alpaca order type (the `type` field of an order). -/
inductive OrderType
  | market
  | limit
  | stop
  | stop_limit
  | trailing_stop
  deriving DecidableEq, Repr

/-- An order snapshot as returned by the venue, with the fields the monitor
reads. Identifiers are opaque; timestamps are abstract instants. -/
structure VenueOrder where
  id : ℕ
  symbol : List Char
  side : OrderSide
  otype : OrderType
  qty : ℚ
  filled_qty : ℚ
  filled_avg_price : ℚ
  limit_price : Option ℚ
  stop_price : Option ℚ
  status : OrderStatus
  created_at : ℕ
  updated_at : ℕ
  deriving DecidableEq, Repr

/-- A position snapshot as returned by the venue. -/
structure VenuePosition where
  symbol : List Char
  qty : ℚ
  avg_entry_price : ℚ
  current_price : ℚ
  unrealized_pl : ℚ
  unrealized_plpc : ℚ
  market_value : ℚ
  cost_basis : ℚ
  deriving DecidableEq, Repr

/-- A failed venue call (connectivity/API error raised by the client). -/
inductive VenueErr
  | apiError
  deriving DecidableEq, Repr

/-- The venue's responses during one poll cycle: the open-orders query
(`get_orders` with status OPEN, opened after today), the order-by-id re-query,
and the positions query. Each either returns or raises. -/
structure Venue where
  get_orders : Except VenueErr (List VenueOrder)
  get_order_by_id : ℕ → Except VenueErr VenueOrder
  get_all_positions : Except VenueErr (List VenuePosition)

/-- The mutable state of `OrderMonitor`: `active_orders` (a dict from order id
to the order, insertion-ordered) and the `_running` flag. -/
structure MonitorState where
  active_orders : List (ℕ × VenueOrder)
  running : Bool
  deriving DecidableEq, Repr

/-- Python dict insertion: overwrite in place when the key exists, append
otherwise. -/
def dictInsert {α : Type} : List (ℕ × α) → ℕ → α → List (ℕ × α)
  | [], k, v => [(k, v)]
  | (k2, v2) :: rest, k, v =>
    if k2 = k then (k2, v) :: rest else (k2, v2) :: dictInsert rest k v

/-- The dict comprehension `{order.id: order for order in orders}`. -/
def mkDict (orders : List VenueOrder) : List (ℕ × VenueOrder) :=
  orders.foldl (fun m o => dictInsert m o.id o) []

/-- Python `key in dict`. -/
def containsKey {α : Type} (m : List (ℕ × α)) (k : ℕ) : Bool :=
  m.any fun p => decide (p.1 = k)

/-- The two terminal classifications `_handle_order_update` emits. -/
inductive EventKind
  | order_filled
  | order_cancelled
  deriving DecidableEq, Repr

/-- A terminal classification event, tagged with the tracked order id whose
loop iteration emitted it and carrying the re-queried order. -/
structure MonitorEvent where
  order_id : ℕ
  kind : EventKind
  order : VenueOrder
  deriving DecidableEq, Repr

/-- `_handle_order_update`: a filled-order event on status FILLED, a
terminal-cancellation event on CANCELED or EXPIRED, nothing otherwise. -/
def handle_order_update (oid : ℕ) (o : VenueOrder) : List MonitorEvent :=
  if o.status = .filled then [{ order_id := oid, kind := .order_filled, order := o }]
  else if o.status = .canceled ∨ o.status = .expired then
    [{ order_id := oid, kind := .order_cancelled, order := o }]
  else []

/-- One iteration of the `for order_id, prev_order in self.active_orders.items()`
loop of `_check_orders`: ids still in the new open set are skipped; otherwise
the order is re-queried by id — a failing re-query is caught and logged
(no event), a successful one is classified by `_handle_order_update`. -/
def eventsFor (v : Venue) (current : List (ℕ × VenueOrder)) (p : ℕ × VenueOrder) :
    List MonitorEvent :=
  if containsKey current p.1 then []
  else
    match v.get_order_by_id p.1 with
    | .error _ => []
    | .ok o => handle_order_update p.1 o

/-- `_check_orders`: fetch today's open orders (a failure is caught by the
outer `except`, leaving the state unchanged and emitting nothing), diff the
previous `active_orders` against the new set, then replace `active_orders`
wholesale with the new set. Returns the new state and the emitted events in
loop order. -/
def check_orders (v : Venue) (s : MonitorState) : MonitorState × List MonitorEvent :=
  match v.get_orders with
  | .error _ => (s, [])
  | .ok orders =>
    let current := mkDict orders
    ({ s with active_orders := current }, s.active_orders.flatMap (eventsFor v current))

/-- One iteration of the `while self._running` loop of `start_monitoring`:
when running, run `_check_orders` (whose errors are caught); when stopped, do
nothing. The `_running` flag is only changed by `stop_monitoring`. -/
def monitor_loop_step (v : Venue) (s : MonitorState) : MonitorState × List MonitorEvent :=
  if s.running then check_orders v s else (s, [])

/-- The position projection built by `get_active_positions_and_orders`. -/
structure PositionData where
  symbol : List Char
  qty : ℚ
  entry_price : ℚ
  current_price : ℚ
  unrealized_pl : ℚ
  unrealized_plpc : ℚ
  market_value : ℚ
  cost_basis : ℚ
  deriving DecidableEq, Repr

/-- The order projection built by `get_active_positions_and_orders`. -/
structure OrderData where
  id : ℕ
  symbol : List Char
  side : OrderSide
  otype : OrderType
  qty : ℚ
  filled_qty : ℚ
  limit_price : Option ℚ
  stop_price : Option ℚ
  status : OrderStatus
  created_at : ℕ
  updated_at : ℕ
  deriving DecidableEq, Repr

/-- Projection of one venue position into the reported dict. -/
def positionData (p : VenuePosition) : PositionData :=
  { symbol := p.symbol, qty := p.qty, entry_price := p.avg_entry_price,
    current_price := p.current_price, unrealized_pl := p.unrealized_pl,
    unrealized_plpc := p.unrealized_plpc, market_value := p.market_value,
    cost_basis := p.cost_basis }

/-- Projection of one venue order into the reported dict. -/
def orderData (o : VenueOrder) : OrderData :=
  { id := o.id, symbol := o.symbol, side := o.side, otype := o.otype,
    qty := o.qty, filled_qty := o.filled_qty, limit_price := o.limit_price,
    stop_price := o.stop_price, status := o.status,
    created_at := o.created_at, updated_at := o.updated_at }

/-- The value returned by `get_active_positions_and_orders`. -/
structure Snapshot where
  positions : List PositionData
  orders : List OrderData
  deriving DecidableEq, Repr

/-- `get_active_positions_and_orders`: positions first, then open orders; any
venue error is caught and `{'positions': [], 'orders': []}` is returned. The
monitor state is threaded unchanged (the method assigns no attribute). -/
def get_active_positions_and_orders (v : Venue) (s : MonitorState) :
    Snapshot × MonitorState :=
  match v.get_all_positions with
  | .error _ => ({ positions := [], orders := [] }, s)
  | .ok ps =>
    match v.get_orders with
    | .error _ => ({ positions := [], orders := [] }, s)
    | .ok os => ({ positions := ps.map positionData, orders := os.map orderData }, s)

/-- Alpaca time-in-force values the service can produce. -/
inductive TifValue
  | gtc
  | day
  deriving DecidableEq, Repr

/-- Python `str.lower()` (ASCII). -/
def pyLower (cs : List Char) : List Char :=
  cs.map Char.toLower

/-- Line 75 of `alpaca_service.py`:
`OrderSide.BUY if side.lower() == "buy" else OrderSide.SELL`. -/
def toOrderSide (side : List Char) : OrderSide :=
  if pyLower side = "buy".toList then .buy else .sell

/-- Line 76 of `alpaca_service.py`:
`TimeInForce.GTC if time_in_force.lower() == "gtc" else TimeInForce.DAY`. -/
def toTimeInForce (tif : List Char) : TifValue :=
  if pyLower tif = "gtc".toList then .gtc else .day

/-- Round half to even at integer precision (the rounding Python's
`round(Decimal, 2)` applies per hundredth). -/
def roundHalfEven (q : ℚ) : ℤ :=
  let f := ⌊q⌋
  let r := q - (f : ℚ)
  if r < 1/2 then f
  else if 1/2 < r then f + 1
  else if f % 2 = 0 then f else f + 1

/-- Python `round(price, 2)` on an exact decimal. -/
def pyRound2 (q : ℚ) : ℚ :=
  (roundHalfEven (q * 100) : ℚ) / 100

/-- The `StopLimitOrderRequest` built by `place_stop_limit_order`. -/
structure StopLimitOrderRequest where
  symbol : List Char
  qty : ℤ
  side : OrderSide
  time_in_force : TifValue
  limit_price : ℚ
  stop_price : ℚ
  deriving DecidableEq, Repr

/-- The errors `place_stop_limit_order` re-raises: `ValueError`
("Invalid order parameters") and `RuntimeError` ("Order placement failed"). -/
inductive PlaceOrderErr
  | invalidParameters
  | submissionFailed
  deriving DecidableEq, Repr

/-- The request construction of `place_stop_limit_order` (lines 74-89): the
side and time-in-force strings are mapped by `toOrderSide`/`toTimeInForce`
(no validation), prices are rounded to two decimals. -/
def buildStopLimitRequest (symbol : List Char) (qty : ℤ)
    (limit_price stop_price : ℚ) (side : List Char) (time_in_force : List Char) :
    StopLimitOrderRequest :=
  { symbol := symbol, qty := qty, side := toOrderSide side,
    time_in_force := toTimeInForce time_in_force,
    limit_price := pyRound2 limit_price, stop_price := pyRound2 stop_price }

/-- `TradingService.place_stop_limit_order`: build the request, submit it via
the client (`submit_order`), and re-raise a venue rejection as
`RuntimeError` ("Order placement failed"). No branch of the embedded code
raises `ValueError`: the side/time-in-force substitution happens first. -/
def place_stop_limit_order
    (submit_order : StopLimitOrderRequest → Except VenueErr VenueOrder)
    (symbol : List Char) (qty : ℤ) (limit_price stop_price : ℚ)
    (side : List Char) (time_in_force : List Char) :
    Except PlaceOrderErr VenueOrder :=
  match submit_order (buildStopLimitRequest symbol qty limit_price stop_price
      side time_in_force) with
  | .ok r => .ok r
  | .error _ => .error .submissionFailed

/-! ### Concrete fixtures used by witnesses and counterexamples -/

/-- A venue order with the given id and status (other fields fixed). -/
def exOrder (i : ℕ) (st : OrderStatus) : VenueOrder :=
  { id := i, symbol := "AAPL".toList, side := .buy, otype := .stop_limit,
    qty := 1, filled_qty := 1, filled_avg_price := 100, limit_price := some 101,
    stop_price := some 100, status := st, created_at := 0, updated_at := 1 }

/-- A venue whose every query raises. -/
def vErr : Venue :=
  { get_orders := .error .apiError,
    get_order_by_id := fun _ => .error .apiError,
    get_all_positions := .error .apiError }

/-- A venue reporting a genuinely empty portfolio: no positions, no open
orders. -/
def emptyVenue : Venue :=
  { get_orders := .ok [],
    get_order_by_id := fun _ => .error .apiError,
    get_all_positions := .ok [] }

/-- A monitor tracking exactly one open order (id 1) from the previous cycle. -/
def sOne : MonitorState :=
  { active_orders := [(1, exOrder 1 .new)], running := true }

/-- A venue whose open set is empty and that reports order 1 as FILLED when
re-queried. -/
def vFilled : Venue :=
  { get_orders := .ok [],
    get_order_by_id := fun i => if i = 1 then .ok (exOrder 1 .filled) else .error .apiError,
    get_all_positions := .ok [] }

/-- A venue whose open set is empty and that reports order 1 as still NEW when
re-queried (a transient inconsistency). -/
def vStillNew : Venue :=
  { get_orders := .ok [],
    get_order_by_id := fun i => if i = 1 then .ok (exOrder 1 .new) else .error .apiError,
    get_all_positions := .ok [] }

/-! ### C7, C8, C9, C10 -/

/-- C7: the claim says an order submission with a side other than buy/sell, or
an invalid time-in-force, fails with an InvalidOrderParameters-class error. The
code instead substitutes silently: `side.lower() == "buy"` maps every other
side (here `"hold"`) to SELL, and every non-`"gtc"` time-in-force (here
`"ioc"`) to DAY, and the order is submitted successfully with the substituted
values. -/
theorem C7_invalid_side_silently_sells :
    toOrderSide "hold".toList = OrderSide.sell ∧
    toTimeInForce "ioc".toList = TifValue.day ∧
    (buildStopLimitRequest "AAPL".toList 1 101 100 "hold".toList
      "ioc".toList).side = OrderSide.sell ∧
    place_stop_limit_order (fun _ => .ok (exOrder 7 .accepted)) "AAPL".toList 1
      101 100 "hold".toList "ioc".toList = .ok (exOrder 7 .accepted) :=
  ⟨by decide, by decide, by decide, by decide⟩

/-- C8: `get_active_positions_and_orders` is a pure snapshot query — the
monitor state after the call (in particular `active_orders`) equals the state
before it, on every venue outcome. -/
theorem C8_snapshot_preserves_state (v : Venue) (s : MonitorState) :
    (get_active_positions_and_orders v s).2 = s := by
  rcases h1 : v.get_all_positions with e | ps
  · simp [get_active_positions_and_orders, h1]
  · rcases h2 : v.get_orders with e2 | os <;>
      simp [get_active_positions_and_orders, h1, h2]

/-- C9: when the open-orders query of a poll cycle raises, the cycle is a
no-op — `active_orders` is unchanged and no events are emitted — and the
`_running` flag is untouched, so the monitoring loop continues. -/
theorem C9_failed_poll_is_noop (v : Venue) (s : MonitorState) (err : VenueErr)
    (herr : v.get_orders = .error err) :
    check_orders v s = (s, []) ∧
    (monitor_loop_step v s).1.running = s.running := by
  have h1 : check_orders v s = (s, []) := by simp [check_orders, herr]
  refine ⟨h1, ?_⟩
  by_cases hr : s.running <;> simp [monitor_loop_step, hr, h1]

/-- C9 witness: a concrete failing venue against a monitor tracking one
order. -/
theorem C9_witness :
    check_orders vErr sOne = (sOne, []) ∧
    (monitor_loop_step vErr sOne).1.running = sOne.running :=
  C9_failed_poll_is_noop vErr sOne .apiError rfl

/-- C10: when a venue query inside `get_active_positions_and_orders` raises
(the positions query, or the orders query after positions succeeded), the call
returns `{'positions': [], 'orders': []}` — the same value a genuinely empty
portfolio produces, so callers cannot distinguish the two. -/
theorem C10_query_error_looks_empty (v : Venue) (s : MonitorState) (err : VenueErr)
    (herr : v.get_all_positions = .error err ∨
      ∃ ps, v.get_all_positions = .ok ps ∧ v.get_orders = .error err) :
    (get_active_positions_and_orders v s).1 = { positions := [], orders := [] } ∧
    (get_active_positions_and_orders v s).1 =
      (get_active_positions_and_orders emptyVenue s).1 := by
  have hempty : (get_active_positions_and_orders emptyVenue s).1 =
      { positions := [], orders := [] } := rfl
  have hv : (get_active_positions_and_orders v s).1 =
      { positions := [], orders := [] } := by
    rcases herr with h | ⟨ps, h1, h2⟩
    · simp [get_active_positions_and_orders, h]
    · simp [get_active_positions_and_orders, h1, h2]
  exact ⟨hv, by rw [hv, hempty]⟩

/-- C10 witness: the all-failing venue produces the empty snapshot, equal to
the empty portfolio's snapshot. -/
theorem C10_witness :
    (get_active_positions_and_orders vErr sOne).1 = { positions := [], orders := [] } ∧
    (get_active_positions_and_orders vErr sOne).1 =
      (get_active_positions_and_orders emptyVenue sOne).1 :=
  C10_query_error_looks_empty vErr sOne .apiError (Or.inl rfl)

/-! ### C6: key parsing -/

/-- A string without an underscore is left whole by the `_w` split. -/
lemma splitW_of_not_underscore : ∀ s : List Char, '_' ∉ s → splitW s = [s]
  | [], _ => rfl
  | [_], _ => rfl
  | c1 :: c2 :: rest, h => by
    have h1 : c1 ≠ '_' := fun hc => h (by simp [hc])
    have h2 : '_' ∉ c2 :: rest := fun hm => h (List.mem_cons_of_mem _ hm)
    have ih := splitW_of_not_underscore (c2 :: rest) h2
    simp only [splitW]
    rw [if_neg (fun hb => h1 hb.1), ih]

/-- Splitting `s ++ "_w" ++ t` when `s` itself contains no separator: the
first part is `s`, the rest is the split of `t`. -/
lemma splitW_append_sep : ∀ s : List Char, splitW s = [s] →
    ∀ t : List Char, splitW (s ++ '_' :: 'w' :: t) = s :: splitW t
  | [], _, t => by simp [splitW]
  | [c], _, t => by
    simp [splitW]
  | c1 :: c2 :: rest, h, t => by
    by_cases hb : c1 = '_' ∧ c2 = 'w'
    · exfalso
      simp only [splitW, if_pos hb] at h
      exact (List.cons_ne_nil c1 (c2 :: rest)) ((List.cons_eq_cons.mp h).1).symm
    · have htail : splitW (c2 :: rest) = [c2 :: rest] := by
        simp only [splitW, if_neg hb] at h
        rcases hsp : splitW (c2 :: rest) with _ | ⟨t0, ts⟩
        · rw [hsp] at h
          simp at h
        · rw [hsp] at h
          obtain ⟨h1, h2⟩ := List.cons_eq_cons.mp h
          obtain ⟨-, h3⟩ := List.cons_eq_cons.mp h1
          rw [h3, h2]
      have ih := splitW_append_sep (c2 :: rest) htail t
      simp only [List.cons_append] at ih ⊢
      simp only [splitW]
      rw [if_neg hb, ih]

/-- An all-digit string contains no underscore. -/
lemma allDigits_not_underscore {cs : List Char} (h : allDigits cs = true) :
    '_' ∉ cs := by
  intro hm
  have hd : isDigitChar '_' = true := List.all_eq_true.mp h _ hm
  exact absurd hd (by decide)

/-- A string accepted by `digitsVal` contains no underscore. -/
lemma digitsVal_not_underscore {cs : List Char} {n : ℕ}
    (h : digitsVal cs = some n) : '_' ∉ cs := by
  unfold digitsVal at h
  by_cases hc : cs ≠ [] ∧ allDigits cs
  · exact allDigits_not_underscore hc.2
  · rw [if_neg hc] at h
    cases h

/-- A string accepted by Python `int` contains no separator, so the `_w` split
leaves it whole. -/
lemma pyIntParse_splitW {ds : List Char} {n : ℤ} (h : pyIntParse ds = some n) :
    splitW ds = [ds] := by
  apply splitW_of_not_underscore
  unfold pyIntParse at h
  by_cases h1 : ds.head? = some '-'
  · rw [if_pos h1] at h
    rcases hv : digitsVal ds.tail with - | m
    · simp [hv] at h
    · have hnu := digitsVal_not_underscore hv
      cases ds with
      | nil => cases h1
      | cons c cs =>
        simp only [List.head?_cons, Option.some.injEq] at h1
        subst h1
        intro hmem
        rcases List.mem_cons.mp hmem with h2 | h2
        · exact absurd h2 (by decide)
        · exact hnu h2
  · rw [if_neg h1] at h
    by_cases h2 : ds.head? = some '+'
    · rw [if_pos h2] at h
      rcases hv : digitsVal ds.tail with - | m
      · simp [hv] at h
      · have hnu := digitsVal_not_underscore hv
        cases ds with
        | nil => cases h2
        | cons c cs =>
          simp only [List.head?_cons, Option.some.injEq] at h2
          subst h2
          intro hmem
          rcases List.mem_cons.mp hmem with h3 | h3
          · exact absurd h3 (by decide)
          · exact hnu h3
    · rw [if_neg h2] at h
      rcases hv : digitsVal ds with - | m
      · simp [hv] at h
      · exact digitsVal_not_underscore hv

/-- C6 counterexample: the claim says a key whose `_w` suffix is not a
positive integer fails with `MalformedSignal`; but `"AAPL_w0"` parses
successfully to window `0`, which is not positive. -/
theorem C6_counterexample :
    parse_signal_key "AAPL_w0".toList = .ok ("AAPL".toList, 0) ∧
    ¬(0 < (0 : ℤ)) :=
  ⟨by decide, by decide⟩

/-- C6 amended: a key of the form `<SYMBOL>_w<S>`, where `<SYMBOL>` contains
no further `_w` and `<S>` parses as a Python integer `N` (sign allowed; zero
and negative values accepted — positivity is NOT enforced), parses to symbol
`<SYMBOL>` and window `N`. Any key of any other format fails with a
`ValueError` (`MalformedSignal`): a key that does not split into exactly two
parts on the literal substring `_w` (in particular a key without `_w`, or
with two or more occurrences of `_w`), and a two-part key whose suffix does
not parse as an integer. -/
theorem C6_key_parse_amended :
    (∀ (symbol ds : List Char) (n : ℤ), splitW symbol = [symbol] →
      pyIntParse ds = some n →
      parse_signal_key (symbol ++ '_' :: 'w' :: ds) = .ok (symbol, n)) ∧
    (∀ key : List Char, (splitW key).length ≠ 2 →
      parse_signal_key key = .error .valueError) ∧
    (∀ key symbol ds : List Char, splitW key = [symbol, ds] →
      pyIntParse ds = none →
      parse_signal_key key = .error .valueError) := by
  refine ⟨?_, ?_, ?_⟩
  · intro symbol ds n hs hd
    have h1 := splitW_append_sep symbol hs ds
    rw [pyIntParse_splitW hd] at h1
    unfold parse_signal_key
    rw [h1]
    simp [hd]
  · intro key hlen
    unfold parse_signal_key
    rcases hsp : splitW key with - | ⟨a, - | ⟨b, - | ⟨c, rest⟩⟩⟩
    · rfl
    · rfl
    · exact absurd (by rw [hsp]; rfl) hlen
    · rfl
  · intro key symbol ds hsp hnone
    unfold parse_signal_key
    rw [hsp]
    simp [hnone]

/-- C6 witness: the well-formed key `AAPL_w3` parses to symbol `AAPL`,
window `3`; the three-part key `A_wB_w1` and the non-integer-suffix key
`AAPL_wfoo` both fail with `ValueError`. -/
theorem C6_witness :
    parse_signal_key ("AAPL".toList ++ '_' :: 'w' :: "3".toList) =
      .ok ("AAPL".toList, 3) ∧
    parse_signal_key "A_wB_w1".toList = .error .valueError ∧
    parse_signal_key "AAPL_wfoo".toList = .error .valueError :=
  ⟨C6_key_parse_amended.1 "AAPL".toList "3".toList 3 (by decide) (by decide),
   C6_key_parse_amended.2.1 "A_wB_w1".toList (by decide),
   C6_key_parse_amended.2.2 "AAPL_wfoo".toList "AAPL".toList "foo".toList
     (by decide) (by decide)⟩

/-! ### C1, C5: the order monitor's diff-and-classify cycle -/

/-- Membership after a dict insertion: the inserted key or an existing pair. -/
lemma mem_dictInsert {α : Type} (m : List (ℕ × α)) (k : ℕ) (v : α)
    (p : ℕ × α) (h : p ∈ dictInsert m k v) : p.1 = k ∨ p ∈ m := by
  induction m with
  | nil =>
    simp only [dictInsert, List.mem_singleton] at h
    left
    rw [h]
  | cons q rest ih =>
    obtain ⟨k2, v2⟩ := q
    simp only [dictInsert] at h
    by_cases hq : k2 = k
    · rw [if_pos hq] at h
      rcases List.mem_cons.mp h with h1 | h1
      · left
        rw [h1, hq]
      · right
        exact List.mem_cons_of_mem _ h1
    · rw [if_neg hq] at h
      rcases List.mem_cons.mp h with h1 | h1
      · right
        rw [h1]
        exact List.mem_cons_self _ _
      · rcases ih h1 with h2 | h2
        · left; exact h2
        · right; exact List.mem_cons_of_mem _ h2

/-- Every pair in the folded dict comes from the seed dict or from the list. -/
lemma mem_foldl_dictInsert (l : List VenueOrder) :
    ∀ (m : List (ℕ × VenueOrder)) (p : ℕ × VenueOrder),
      p ∈ l.foldl (fun m o => dictInsert m o.id o) m →
      p ∈ m ∨ ∃ o ∈ l, o.id = p.1 := by
  induction l with
  | nil =>
    intro m p h
    exact Or.inl h
  | cons o rest ih =>
    intro m p h
    simp only [List.foldl_cons] at h
    rcases ih (dictInsert m o.id o) p h with hm | ⟨o2, ho2, hid⟩
    · rcases mem_dictInsert m o.id o p hm with h1 | h2
      · exact Or.inr ⟨o, List.mem_cons_self _ _, h1.symm⟩
      · exact Or.inl h2
    · exact Or.inr ⟨o2, List.mem_cons_of_mem _ ho2, hid⟩

/-- Every key of `{order.id: order for order in orders}` is the id of some
order of the list. -/
lemma mkDict_keys {orders : List VenueOrder} {p : ℕ × VenueOrder}
    (h : p ∈ mkDict orders) : ∃ o ∈ orders, o.id = p.1 := by
  rcases mem_foldl_dictInsert orders [] p h with h0 | h1
  · cases h0
  · exact h1

/-- `key in dict` is false when no pair carries the key. -/
lemma containsKey_eq_false {α : Type} (m : List (ℕ × α)) (k : ℕ)
    (h : ∀ p ∈ m, p.1 ≠ k) : containsKey m k = false := by
  unfold containsKey
  rw [List.any_eq_false]
  intro p hp
  simp [h p hp]

/-- An id absent from the fetched open orders is absent from the new dict. -/
lemma mkDict_not_containsKey {orders : List VenueOrder} {k : ℕ}
    (h : ∀ o ∈ orders, o.id ≠ k) : containsKey (mkDict orders) k = false := by
  apply containsKey_eq_false
  intro p hp hk
  obtain ⟨o, ho, hid⟩ := mkDict_keys hp
  exact h o ho (hid.trans hk)

/-- Every event `_handle_order_update` emits carries the id it was called
for. -/
lemma handle_order_update_order_id (oid : ℕ) (o : VenueOrder) :
    ∀ e ∈ handle_order_update oid o, e.order_id = oid := by
  intro e he
  unfold handle_order_update at he
  by_cases h1 : o.status = .filled
  · rw [if_pos h1] at he
    rw [List.mem_singleton.mp he]
  · rw [if_neg h1] at he
    by_cases h2 : o.status = .canceled ∨ o.status = .expired
    · rw [if_pos h2] at he
      rw [List.mem_singleton.mp he]
    · rw [if_neg h2] at he
      cases he

/-- Every event a loop iteration emits carries that iteration's order id. -/
lemma eventsFor_order_id (v : Venue) (current : List (ℕ × VenueOrder))
    (p : ℕ × VenueOrder) : ∀ e ∈ eventsFor v current p, e.order_id = p.1 := by
  intro e he
  unfold eventsFor at he
  by_cases hc : containsKey current p.1
  · rw [if_pos hc] at he
    cases he
  · rw [if_neg hc] at he
    rcases hq : v.get_order_by_id p.1 with er | o
    · rw [hq] at he
      cases he
    · rw [hq] at he
      exact handle_order_update_order_id p.1 o e he

/-- The events of one poll cycle, restricted to one tracked order id that is
absent from the new open set and whose re-query succeeds: exactly the
classification of the re-queried order, once — provided the tracked ids are
distinct (they are: `active_orders` is always a dict). -/
lemma flatMap_eventsFor_filter (v : Venue) (current : List (ℕ × VenueOrder))
    (oid : ℕ) (o : VenueOrder) (hq : v.get_order_by_id oid = .ok o)
    (hc : containsKey current oid = false) :
    ∀ l : List (ℕ × VenueOrder), (l.map Prod.fst).Nodup →
      (∃ pv, (oid, pv) ∈ l) →
      (l.flatMap (eventsFor v current)).filter (fun e => decide (e.order_id = oid)) =
        handle_order_update oid o := by
  intro l
  induction l with
  | nil =>
    rintro - ⟨pv, hpv⟩
    cases hpv
  | cons p rest ih =>
    rintro hnd ⟨pv, hpv⟩
    rw [List.flatMap_cons, List.filter_append]
    by_cases hp : p.1 = oid
    · have hfirst : (eventsFor v current p).filter
          (fun e => decide (e.order_id = oid)) = handle_order_update oid o := by
        unfold eventsFor
        rw [hp, if_neg (by rw [hc]; exact Bool.false_ne_true), hq]
        apply List.filter_eq_self.mpr
        intro e he
        simp [handle_order_update_order_id oid o e he]
      have hrest : (rest.flatMap (eventsFor v current)).filter
          (fun e => decide (e.order_id = oid)) = [] := by
        rw [List.filter_eq_nil_iff]
        intro e he
        obtain ⟨q, hq2, he2⟩ := List.mem_flatMap.mp he
        have hqid := eventsFor_order_id v current q e he2
        have hqne : q.1 ≠ oid := by
          intro hqeq
          have : oid ∈ rest.map Prod.fst := by
            rw [← hqeq]
            exact List.mem_map_of_mem Prod.fst hq2
          rw [← hp] at this
          exact (List.nodup_cons.mp (by simpa using hnd)).1 this
        simp [hqid, hqne]
      rw [hfirst, hrest, List.append_nil]
    · have hhead : (eventsFor v current p).filter
          (fun e => decide (e.order_id = oid)) = [] := by
        rw [List.filter_eq_nil_iff]
        intro e he
        have := eventsFor_order_id v current p e he
        simp [this, hp]
      have hmem2 : ∃ pv2, (oid, pv2) ∈ rest := by
        rcases List.mem_cons.mp hpv with h1 | h1
        · exact absurd (congrArg Prod.fst h1.symm) hp
        · exact ⟨pv, h1⟩
      rw [hhead, List.nil_append]
      exact ih (List.nodup_cons.mp (by simpa using hnd)).2 hmem2

/-- C1: in any poll cycle, for an order id tracked in the previous cycle's
`ActiveOrderSet`, absent from the newly fetched open-order set, and whose
re-query by id succeeds: when the re-queried status is FILLED, the cycle emits
exactly one event for that order and it is the filled-order event; when the
status is CANCELED or EXPIRED, the cycle emits exactly one event for that
order and it is the terminal-cancellation event — never both, never zero. -/
theorem C1_terminal_classified_exactly_once (v : Venue) (s : MonitorState)
    (oid : ℕ) (prev o : VenueOrder) (orders : List VenueOrder)
    (hnd : (s.active_orders.map Prod.fst).Nodup)
    (hmem : (oid, prev) ∈ s.active_orders)
    (hopen : v.get_orders = .ok orders)
    (habsent : ∀ ord ∈ orders, ord.id ≠ oid)
    (hquery : v.get_order_by_id oid = .ok o) :
    (o.status = .filled →
      ((check_orders v s).2.filter fun e => decide (e.order_id = oid)) =
        [{ order_id := oid, kind := .order_filled, order := o }]) ∧
    ((o.status = .canceled ∨ o.status = .expired) →
      ((check_orders v s).2.filter fun e => decide (e.order_id = oid)) =
        [{ order_id := oid, kind := .order_cancelled, order := o }]) := by
  have hc : containsKey (mkDict orders) oid = false := mkDict_not_containsKey habsent
  have hev : (check_orders v s).2 = s.active_orders.flatMap (eventsFor v (mkDict orders)) := by
    simp [check_orders, hopen]
  have hmain := flatMap_eventsFor_filter v (mkDict orders) oid o hquery hc
    s.active_orders hnd ⟨prev, hmem⟩
  rw [hev, hmain]
  constructor
  · intro hf
    simp [handle_order_update, hf]
  · rintro (hce | hce) <;> simp [handle_order_update, hce]

/-- C1 witness: order 1 tracked, open set now empty, re-query says FILLED —
the cycle's events for order 1 are exactly one filled-order event. -/
theorem C1_witness :
    ((check_orders vFilled sOne).2.filter fun e => decide (e.order_id = 1)) =
      [{ order_id := 1, kind := .order_filled, order := exOrder 1 .filled }] :=
  (C1_terminal_classified_exactly_once vFilled sOne 1 (exOrder 1 .new)
    (exOrder 1 .filled) [] (by decide) (by decide) rfl (by decide) (by decide)).1
    (by decide)

/-- C5 counterexample: the claim says an order that disappeared from the open
set but re-queries with a non-terminal status remains tracked for the next
cycle. Concretely: order 1 is tracked, the new open set is empty, the re-query
reports status NEW — yet the cycle ends with an empty `ActiveOrderSet` (the
order is dropped from tracking), with no event emitted. -/
theorem C5_counterexample :
    (check_orders vStillNew sOne).1.active_orders = [] ∧
    (check_orders vStillNew sOne).2 = [] := by decide

/-- C5 amended: an order tracked in the previous cycle, absent from the new
open set, whose re-queried status is neither FILLED, CANCELED nor EXPIRED, is
silently dropped: no event is emitted for it this cycle, and the new
`ActiveOrderSet` (the venue's open set, which replaces the old set wholesale)
does not contain it, so it is NOT re-evaluated on the next cycle. -/
theorem C5_nonterminal_dropped (v : Venue) (s : MonitorState)
    (oid : ℕ) (prev o : VenueOrder) (orders : List VenueOrder)
    (hmem : (oid, prev) ∈ s.active_orders)
    (hopen : v.get_orders = .ok orders)
    (habsent : ∀ ord ∈ orders, ord.id ≠ oid)
    (hquery : v.get_order_by_id oid = .ok o)
    (hnt : o.status ≠ .filled ∧ o.status ≠ .canceled ∧ o.status ≠ .expired) :
    (∀ p ∈ (check_orders v s).1.active_orders, p.1 ≠ oid) ∧
    (∀ e ∈ (check_orders v s).2, e.order_id ≠ oid) := by
  have hc : containsKey (mkDict orders) oid = false := mkDict_not_containsKey habsent
  have hact : (check_orders v s).1.active_orders = mkDict orders := by
    simp [check_orders, hopen]
  have hev : (check_orders v s).2 = s.active_orders.flatMap (eventsFor v (mkDict orders)) := by
    simp [check_orders, hopen]
  constructor
  · intro p hp hpk
    rw [hact] at hp
    obtain ⟨ord, hord, hid⟩ := mkDict_keys hp
    exact habsent ord hord (hid.trans hpk)
  · intro e he heid
    rw [hev] at he
    obtain ⟨q, hq2, he2⟩ := List.mem_flatMap.mp he
    have hqid := eventsFor_order_id v (mkDict orders) q e he2
    have hqoid : q.1 = oid := hqid.symm.trans heid
    unfold eventsFor at he2
    rw [hqoid, if_neg (by rw [hc]; exact Bool.false_ne_true)] at he2
    simp only [hquery] at he2
    unfold handle_order_update at he2
    rw [if_neg hnt.1, if_neg (by rintro (h | h); exacts [hnt.2.1 h, hnt.2.2 h])] at he2
    cases he2

/-- C5 witness (for the amended statement): order 1 tracked, open set empty,
re-query says NEW — no pair with key 1 survives in the new set, and no event
for order 1 is emitted. -/
theorem C5_witness :
    (∀ p ∈ (check_orders vStillNew sOne).1.active_orders, p.1 ≠ 1) ∧
    (∀ e ∈ (check_orders vStillNew sOne).2, e.order_id ≠ 1) :=
  C5_nonterminal_dropped vStillNew sOne 1 (exOrder 1 .new) (exOrder 1 .new) []
    (by decide) rfl (by decide) (by decide) (by decide)

/-! ### C2, C3, C4: the filter/sizer pipeline -/

/-- The sizing relationship every pair placed into the output satisfies. -/
def sizedOk (av : ℚ) (p : TradingSignal × ℤ) : Prop :=
  p.1.entry_price ≠ 0 ∧
  p.2 = pyTrunc (av * p.1.position_size / p.1.entry_price)

/-- Inverting a successful, non-skipped loop iteration: the emitted quantity
is the truncated sizing expression of the emitted signal, and the entry price
is nonzero (a zero entry price would have raised). -/
lemma processEntry_ok_some {o : ProcOpts} {k : List Char} {d : RawSignalData}
    {symbol : List Char} {sig : TradingSignal} {qty : ℤ}
    (h : processEntry o k d = .ok (some (symbol, (sig, qty)))) :
    sizedOk o.account_value (sig, qty) := by
  unfold processEntry at h
  rcases hk : parse_signal_key k with e | sw
  · rw [hk] at h
    simp [Bind.bind, Except.bind] at h
  · rw [hk] at h
    simp only [Bind.bind, Except.bind] at h
    rcases hf : filteredOut o sw.1 d with e | b
    · rw [hf] at h
      simp at h
    · rw [hf] at h
      rcases b with - | -
      · simp only [Bool.false_eq_true, if_false] at h
        rcases hb : buildSignal d sw.1 sw.2 with e | sig2
        · rw [hb] at h
          simp at h
        · rw [hb] at h
          simp only at h
          rcases hs : sizeSignal o.account_value sig2 with e | qty2
          · rw [hs] at h
            simp at h
          · rw [hs] at h
            have h2 : (sw.1, (sig2, qty2)) = (symbol, (sig, qty)) := by
              simpa [pure, Except.pure] using h
            have hsig : sig2 = sig := congrArg (fun x => x.2.1) h2
            have hqty : qty2 = qty := congrArg (fun x => x.2.2) h2
            subst hsig
            subst hqty
            unfold sizeSignal at hs
            by_cases hz : sig2.entry_price = 0
            · rw [if_pos hz] at hs
              cases hs
            · rw [if_neg hz] at hs
              refine ⟨hz, ?_⟩
              injection hs with hs2
              exact hs2.symm
      · simp [pure, Except.pure] at h

/-- Membership after `signals[symbol].append(x)`: the appended pair or a pair
already stored. -/
lemma mem_addSignal {m : SignalsMap} {symbol s : List Char}
    {x p : TradingSignal × ℤ} {l : List (TradingSignal × ℤ)}
    (h : (s, l) ∈ addSignal m symbol x) (hp : p ∈ l) :
    p = x ∨ ∃ l0, (s, l0) ∈ m ∧ p ∈ l0 := by
  induction m with
  | nil =>
    simp only [addSignal, List.mem_singleton] at h
    obtain ⟨-, hl⟩ := Prod.mk.injEq .. ▸ h
    have hl2 : l = [x] := congrArg Prod.snd h
    rw [hl2] at hp
    exact Or.inl (List.mem_singleton.mp hp)
  | cons q rest ih =>
    obtain ⟨qs, ql⟩ := q
    simp only [addSignal] at h
    by_cases hq : qs = symbol
    · rw [if_pos hq] at h
      rcases List.mem_cons.mp h with h1 | h1
      · have hl2 : l = ql ++ [x] := congrArg Prod.snd h1
        have hs2 : s = qs := congrArg Prod.fst h1
        rw [hl2] at hp
        rcases List.mem_append.mp hp with h2 | h2
        · right
          exact ⟨ql, by rw [hs2]; exact List.mem_cons_self _ _, h2⟩
        · exact Or.inl (List.mem_singleton.mp h2)
      · right
        exact ⟨l, List.mem_cons_of_mem _ h1, hp⟩
    · rw [if_neg hq] at h
      rcases List.mem_cons.mp h with h1 | h1
      · right
        exact ⟨l, by rw [h1]; exact List.mem_cons_self _ _, hp⟩
      · rcases ih h1 with h2 | ⟨l0, h3, h4⟩
        · exact Or.inl h2
        · exact Or.inr ⟨l0, List.mem_cons_of_mem _ h3, h4⟩

/-- Invariant of the feed loop: every pair in a successful result satisfies
the sizing relationship, provided every pair of the accumulator does. -/
lemma processFeed_sizedOk (o : ProcOpts) :
    ∀ (feed : List (List Char × RawSignalData)) (m res : SignalsMap),
      (∀ s l, (s, l) ∈ m → ∀ p ∈ l, sizedOk o.account_value p) →
      processFeed o feed m = .ok res →
      ∀ s l, (s, l) ∈ res → ∀ p ∈ l, sizedOk o.account_value p
  | [], m, res, hm, h => by
    simp only [processFeed] at h
    injection h with h2
    rw [← h2]
    exact hm
  | (k, d) :: rest, m, res, hm, h => by
    simp only [processFeed] at h
    rcases he : processEntry o k d with e | x
    · rw [he] at h
      cases h
    · rw [he] at h
      rcases x with - | ⟨symbol, sx⟩
      · exact processFeed_sizedOk o rest m res hm h
      · refine processFeed_sizedOk o rest (addSignal m symbol sx) res ?_ h
        intro s l hsl p hp
        rcases mem_addSignal hsl hp with h1 | ⟨l0, h2, h3⟩
        · rw [h1]
          obtain ⟨sig, qty⟩ := sx
          exact processEntry_ok_some he
        · exact hm s l0 h2 p h3

/-- C2: for every signal/quantity pair in a successful run of
`process_trading_signals`, if the account value is nonnegative, the parsed
position-size fraction lies in [0,1] and the entry price is positive, then the
quantity equals `floor(account_value * position_size / entry_price)` and is a
nonnegative integer. -/
theorem C2_quantity_is_floor (o : ProcOpts) (feed : List (List Char × RawSignalData))
    (m : SignalsMap) (h : process_trading_signals o feed = .ok m)
    (symbol : List Char) (l : List (TradingSignal × ℤ)) (hl : (symbol, l) ∈ m)
    (sig : TradingSignal) (qty : ℤ) (hp : (sig, qty) ∈ l)
    (hav : 0 ≤ o.account_value) (hp0 : 0 ≤ sig.position_size)
    (hp1 : sig.position_size ≤ 1) (he : 0 < sig.entry_price) :
    qty = ⌊o.account_value * sig.position_size / sig.entry_price⌋ ∧ 0 ≤ qty := by
  have hs := processFeed_sizedOk o feed [] m (by simp) h symbol l hl (sig, qty) hp
  obtain ⟨hne, hq⟩ := hs
  simp only at hne hq
  have hval : 0 ≤ o.account_value * sig.position_size / sig.entry_price :=
    div_nonneg (mul_nonneg hav hp0) he.le
  have htr : pyTrunc (o.account_value * sig.position_size / sig.entry_price) =
      ⌊o.account_value * sig.position_size / sig.entry_price⌋ := by
    unfold pyTrunc
    rw [if_pos hval]
  refine ⟨by rw [hq, htr], ?_⟩
  rw [hq, htr]
  exact Int.floor_nonneg.mpr hval

/-- The spec's scenario options: thresholds (0.5, 1.5), account value 10000,
no allow-list. -/
def oEx : ProcOpts :=
  { account_value := 10000, target_symbols := none,
    min_confidence := 1/2, min_risk_reward := 3/2 }

/-- The spec's scenario feed entry: confidence 0.8, risk/reward 2.0,
entry stop price 100, recommended size "10%". -/
def dEx : RawSignalData :=
  { date := some "2024-01-01".toList, signal_type := some "buy".toList,
    confidence := some (4/5), current_price := some 102,
    entry_stop_price := some 100, entry_limit_price := some 101,
    take_profit_price := some 110, stop_loss_price := some 95,
    recommended_size := some "10%".toList, time_barrier_days := some 5,
    expiry_date := some "2024-01-10".toList, daily_volatility := some (1/50),
    risk_reward_ratio := some 2 }

/-- The `TradingSignal` the scenario entry parses to. -/
def sigEx : TradingSignal :=
  { date := "2024-01-01".toList, symbol := "AAPL".toList,
    signal_type := "buy".toList, confidence := 4/5, current_price := 102,
    entry_price := 100, entry_limit_price := 101, take_profit := 110,
    stop_loss := 95, position_size := 1/10, time_barrier_days := 5,
    expiry_date := "2024-01-10".toList, volatility := 1/50,
    risk_reward_ratio := 2, window_weeks := 1 }

/-- C2 witness: the spec's scenario — account 10000, size 10%, entry 100 —
yields quantity 10 = floor(10000 * 0.1 / 100) ≥ 0. -/
theorem C2_witness :
    (10 : ℤ) = ⌊oEx.account_value * sigEx.position_size / sigEx.entry_price⌋ ∧
    (0 : ℤ) ≤ 10 :=
  C2_quantity_is_floor oEx [("AAPL_w1".toList, dEx)]
    [("AAPL".toList, [(sigEx, 10)])] (by decide) "AAPL".toList
    [(sigEx, 10)] (by decide) sigEx 10 (by decide)
    (by decide) (by decide) (by decide) (by decide)

/-- The filter condition evaluates to "skip" (`.ok true`, no error) for an
entry whose symbol misses a nonempty allow-list, whose confidence is below the
threshold, or whose risk/reward ratio is below the threshold. -/
lemma filteredOut_true (o : ProcOpts) (symbol : List Char) (d : RawSignalData)
    (hfilt : (∃ ts, o.target_symbols = some ts ∧ ts ≠ [] ∧ symbol ∉ ts)
      ∨ (∃ c, d.confidence = some c ∧ c < o.min_confidence)
      ∨ (∃ c r, d.confidence = some c ∧ d.risk_reward_ratio = some r ∧
          r < o.min_risk_reward)) :
    filteredOut o symbol d = .ok true := by
  unfold filteredOut
  rcases hfilt with ⟨ts, hts, hne, hmem⟩ | ⟨c, hc, hlt⟩ | ⟨c, r, hc, hr, hlt⟩
  · rw [hts]
    simp [hne, hmem]
  · have hstep : (do
        let c2 ← getItem d.confidence
        if c2 < o.min_confidence then pure true
        else do
          let r ← getItem d.risk_reward_ratio
          pure (decide (r < o.min_risk_reward)) : Except PyErr Bool) = .ok true := by
      rw [hc]
      simp only [getItem, Bind.bind, Except.bind]
      rw [if_pos hlt]
      rfl
    rcases o.target_symbols with - | ts
    · simpa using hstep
    · simp only
      split
      · rfl
      · exact hstep
  · have hstep : (do
        let c2 ← getItem d.confidence
        if c2 < o.min_confidence then pure true
        else do
          let r2 ← getItem d.risk_reward_ratio
          pure (decide (r2 < o.min_risk_reward)) : Except PyErr Bool) = .ok true := by
      rw [hc]
      simp only [getItem, Bind.bind, Except.bind]
      by_cases hcc : c < o.min_confidence
      · rw [if_pos hcc]
        rfl
      · rw [if_neg hcc, hr]
        simp only [getItem, Bind.bind, Except.bind]
        simp [pure, Except.pure, hlt]
    rcases o.target_symbols with - | ts
    · simpa using hstep
    · simp only
      split
      · rfl
      · exact hstep

/-- A loop iteration for a key that parses and an entry the filter rejects is
a silent `continue`: no error, no contribution. -/
lemma processEntry_skip {o : ProcOpts} {k : List Char} {d : RawSignalData}
    {symbol : List Char} {w : ℤ}
    (hk : parse_signal_key k = .ok (symbol, w))
    (hf : filteredOut o symbol d = .ok true) :
    processEntry o k d = .ok none := by
  unfold processEntry
  rw [hk]
  simp only [Bind.bind, Except.bind]
  rw [hf]
  rfl

/-- Removing an entry the loop skips does not change the run's outcome, for
any accumulator. -/
lemma processFeed_skip (o : ProcOpts) (k : List Char) (d : RawSignalData)
    (hskip : processEntry o k d = .ok none) :
    ∀ (xs ys : List (List Char × RawSignalData)) (m : SignalsMap),
      processFeed o (xs ++ (k, d) :: ys) m = processFeed o (xs ++ ys) m
  | [], ys, m => by
    simp only [List.nil_append, processFeed]
    rw [hskip]
  | (k2, d2) :: xs, ys, m => by
    simp only [List.cons_append, processFeed]
    rcases he : processEntry o k2 d2 with e | x
    · rfl
    · rcases x with - | ⟨symbol, sx⟩
      · exact processFeed_skip o k d hskip xs ys m
      · exact processFeed_skip o k d hskip xs ys (addSignal m symbol sx)

/-- C3: an entry whose key parses and that fails the filters — symbol not in
a given nonempty allow-list, or confidence below `min_confidence`, or
risk/reward ratio below `min_risk_reward` — contributes nothing to
`process_trading_signals`: the run on any feed containing it equals the run on
the feed with it removed (so it is absent from the output and raises no
error). -/
theorem C3_filtered_entry_skipped (o : ProcOpts) (k : List Char)
    (d : RawSignalData) (symbol : List Char) (w : ℤ)
    (hk : parse_signal_key k = .ok (symbol, w))
    (hfilt : (∃ ts, o.target_symbols = some ts ∧ ts ≠ [] ∧ symbol ∉ ts)
      ∨ (∃ c, d.confidence = some c ∧ c < o.min_confidence)
      ∨ (∃ c r, d.confidence = some c ∧ d.risk_reward_ratio = some r ∧
          r < o.min_risk_reward))
    (xs ys : List (List Char × RawSignalData)) :
    process_trading_signals o (xs ++ (k, d) :: ys) =
      process_trading_signals o (xs ++ ys) :=
  processFeed_skip o k d
    (processEntry_skip hk (filteredOut_true o symbol d hfilt)) xs ys []

/-- The scenario entry with confidence lowered to 0.1 (below the 0.5
threshold). -/
def dLowConf : RawSignalData :=
  { dEx with confidence := some (1/10) }

/-- C3 witness: the low-confidence entry is skipped — the run on the
one-entry feed equals the run on the empty feed. -/
theorem C3_witness :
    process_trading_signals oEx [("AAPL_w1".toList, dLowConf)] =
      process_trading_signals oEx [] :=
  C3_filtered_entry_skipped oEx "AAPL_w1".toList dLowConf "AAPL".toList 1
    (by decide) (Or.inr (Or.inl ⟨1/10, by decide, by decide⟩)) [] []

/-- C4 counterexample: the claim says a malformed entry is localized and
well-formed entries still appear in the output. But the feed containing the
well-formed scenario entry followed by an entry with a malformed key raises
`ValueError` for the whole call (lines 91-93 re-raise): there is no output
mapping at all, so the well-formed entry appears nowhere. -/
theorem C4_counterexample :
    process_trading_signals oEx [("AAPL_w1".toList, dEx), ("MSFT".toList, dEx)] =
      .error .valueError := by decide

/-- Any raising entry anywhere in the feed makes the whole run raise, for any
accumulator. -/
lemma processFeed_error_of_mem (o : ProcOpts) :
    ∀ (feed : List (List Char × RawSignalData)) (k : List Char)
      (d : RawSignalData) (e : PyErr),
      (k, d) ∈ feed → processEntry o k d = .error e →
      ∀ m : SignalsMap, ∃ e2, processFeed o feed m = .error e2
  | [], k, d, e, hmem, _ => by cases hmem
  | (k2, d2) :: rest, k, d, e, hmem, herr => by
    intro m
    simp only [processFeed]
    rcases he : processEntry o k2 d2 with e3 | x
    · exact ⟨e3, rfl⟩
    · have hmem2 : (k, d) ∈ rest := by
        rcases List.mem_cons.mp hmem with h1 | h1
        · exfalso
          have hk : k = k2 := congrArg Prod.fst h1
          have hd : d = d2 := congrArg Prod.snd h1
          rw [hk, hd, he] at herr
          cases herr
        · exact h1
      rcases x with - | ⟨symbol, sx⟩
      · exact processFeed_error_of_mem o rest k d e hmem2 herr m
      · exact processFeed_error_of_mem o rest k d e hmem2 herr (addSignal m symbol sx)

/-- C4 amended: a `MalformedSignal` parsing error on any entry is NOT
localized — it aborts the whole batch: `process_trading_signals` re-raises the
error, no mapping is returned, and the well-formed entries of the feed appear
in no output. -/
theorem C4_malformed_aborts_batch (o : ProcOpts)
    (feed : List (List Char × RawSignalData)) (k : List Char)
    (d : RawSignalData) (e : PyErr) (hmem : (k, d) ∈ feed)
    (herr : processEntry o k d = .error e) :
    ∃ e2, process_trading_signals o feed = .error e2 :=
  processFeed_error_of_mem o feed k d e hmem herr []

/-- C4 witness: a one-entry feed whose key lacks `_w` raises. -/
theorem C4_witness :
    ∃ e2, process_trading_signals oEx [("MSFT".toList, dEx)] = .error e2 :=
  C4_malformed_aborts_batch oEx [("MSFT".toList, dEx)] "MSFT".toList dEx
    .valueError (List.mem_singleton.mpr rfl) (by decide)
